import Mathlib

/-! Verification of the interactive shell in src/main.rs: the quoting/escaping
tokenizer, the parser with environment-variable expansion, the cd builtin and
one iteration of the read-eval-print loop, embedded shallowly over `List Char`. -/

set_option autoImplicit false

namespace Trash

/-- Unicode white space test, as Rust `char::is_whitespace` (the White_Space
property: U+0009..U+000D, U+0020, U+0085, U+00A0, U+1680, U+2000..U+200A,
U+2028, U+2029, U+202F, U+205F, U+3000). -/
def isWhitespaceChar (c : Char) : Bool :=
  let n := c.toNat
  n == 0x20 || (decide (0x9 ≤ n) && decide (n ≤ 0xd)) || n == 0x85 || n == 0xa0 ||
  n == 0x1680 || (decide (0x2000 ≤ n) && decide (n ≤ 0x200a)) || n == 0x2028 ||
  n == 0x2029 || n == 0x202f || n == 0x205f || n == 0x3000

/-- Rust `current.trim().is_empty()`: every accumulated character is whitespace. -/
def blank (l : List Char) : Bool :=
  l.all isWhitespaceChar

/-- ASCII letter, digit or underscore: one character of the variable-name class
in the regex `\$([a-zA-Z0-9_]+|\$|!)`. -/
def isVarChar (c : Char) : Bool :=
  (decide ('a' ≤ c) && decide (c ≤ 'z')) || (decide ('A' ≤ c) && decide (c ≤ 'Z')) ||
  (decide ('0' ≤ c) && decide (c ≤ '9')) || c == '_'

/-- Quoting provenance of a word token (enum Quoting in the source). -/
inductive Quoting where
  | unquoted
  | singleQuoted
  | doubleQuoted
deriving DecidableEq, Repr

/-- Operator kinds recognized by the tokenizer (enum Operator in the source). -/
inductive Operator where
  | and
  | or
  | pipe
  | andpercent
  | semicolon
deriving DecidableEq, Repr

/-- Tokens produced by the tokenizer (enum Token in the source). -/
inductive Token where
  | word (w : List Char) (q : Quoting)
  | op (o : Operator)
  | whitespace
deriving DecidableEq, Repr

/-- Tokenizer loop state: the two quote-mode flags, the accumulator `current`
and the tokens pushed so far. -/
structure LexState where
  singleQuotes : Bool
  doubleQuotes : Bool
  current : List Char
  tokens : List Token
deriving DecidableEq, Repr

/-- The "remove preceding whitespace" step run at the top of the tokenizer loop
for every character: outside both quote modes a blank accumulator is cleared. -/
def preClear (st : LexState) : LexState :=
  if !st.singleQuotes && !st.doubleQuotes && blank st.current then
    { st with current := [] }
  else st

/-- Push the accumulator as a `word` token with the given quoting and clear it. -/
def flushWord (q : Quoting) (st : LexState) : LexState :=
  { st with tokens := st.tokens ++ [Token.word st.current q], current := [] }

/-- The whitespace arm of the tokenizer: flush a non-blank accumulator as an
unquoted word, then push a `whitespace` token unless the last token already is
one. -/
def wsStep (st : LexState) : LexState :=
  let st1 := if blank st.current then st else flushWord Quoting.unquoted st
  match st1.tokens.getLast? with
  | some Token.whitespace => st1
  | _ => { st1 with tokens := st1.tokens ++ [Token.whitespace], current := [] }

/-- The single-quote arm: flush a non-empty accumulator (tagged `singleQuoted`
when the quote being toggled is the closing one, else `unquoted`) and toggle
the single-quote flag. -/
def squoteStep (st : LexState) : LexState :=
  let st1 :=
    if st.current = [] then st
    else flushWord (if st.singleQuotes then Quoting.singleQuoted else Quoting.unquoted) st
  { st1 with singleQuotes := !st1.singleQuotes }

/-- The double-quote arm, analogous to `squoteStep`. -/
def dquoteStep (st : LexState) : LexState :=
  let st1 :=
    if st.current = [] then st
    else flushWord (if st.doubleQuotes then Quoting.doubleQuoted else Quoting.unquoted) st
  { st1 with doubleQuotes := !st1.doubleQuotes }

/-- The `&` and `;` arms: flush a non-blank accumulator as an unquoted word,
then push the operator token and clear the accumulator. -/
def opStep (st : LexState) (o : Operator) : LexState :=
  let st1 := if blank st.current then st else flushWord Quoting.unquoted st
  { st1 with tokens := st1.tokens ++ [Token.op o], current := [] }

/-- Backslash escape translation: `n`, `t`, `r`, `0` become newline, tab,
carriage return, NUL; every other character is taken verbatim. -/
def escChar (c : Char) : Char :=
  if c == 'n' then '\n'
  else if c == 't' then '\t'
  else if c == 'r' then '\r'
  else if c == '0' then '\x00'
  else c

/-- The character loop of `Parser::tokenize`, one case per match arm of the
source, in source order.  `&&` and the backslash consume a lookahead
character, so the loop is given by cases on the first one or two characters:
a lone last character (lookahead `None`) and a character with a lookahead. -/
def tokenizeLoop (st : LexState) : List Char → LexState
  | [] => st
  | [c] =>
    let st1 := preClear st
    if isWhitespaceChar c && !st1.singleQuotes && !st1.doubleQuotes then
      tokenizeLoop (wsStep st1) []
    else if c == '\'' && !st1.doubleQuotes then
      tokenizeLoop (squoteStep st1) []
    else if c == '"' && !st1.singleQuotes then
      tokenizeLoop (dquoteStep st1) []
    else if c == '&' && !st1.singleQuotes && !st1.doubleQuotes then
      tokenizeLoop (opStep st1 Operator.andpercent) []
    else if c == ';' && !st1.singleQuotes && !st1.doubleQuotes then
      tokenizeLoop (opStep st1 Operator.semicolon) []
    else if c == '\\' then
      tokenizeLoop st1 []
    else
      tokenizeLoop { st1 with current := st1.current ++ [c] } []
  | c :: c2 :: cs =>
    let st1 := preClear st
    if isWhitespaceChar c && !st1.singleQuotes && !st1.doubleQuotes then
      tokenizeLoop (wsStep st1) (c2 :: cs)
    else if c == '\'' && !st1.doubleQuotes then
      tokenizeLoop (squoteStep st1) (c2 :: cs)
    else if c == '"' && !st1.singleQuotes then
      tokenizeLoop (dquoteStep st1) (c2 :: cs)
    else if c == '&' && !st1.singleQuotes && !st1.doubleQuotes then
      if c2 == '&' then tokenizeLoop (opStep st1 Operator.and) cs
      else tokenizeLoop (opStep st1 Operator.andpercent) (c2 :: cs)
    else if c == ';' && !st1.singleQuotes && !st1.doubleQuotes then
      tokenizeLoop (opStep st1 Operator.semicolon) (c2 :: cs)
    else if c == '\\' then
      tokenizeLoop { st1 with current := st1.current ++ [escChar c2] } cs
    else
      tokenizeLoop { st1 with current := st1.current ++ [c] } (c2 :: cs)

/-- The initial tokenizer state: no quote open, empty accumulator, no tokens. -/
def initState : LexState :=
  { singleQuotes := false, doubleQuotes := false, current := [], tokens := [] }

/-- The flush after the character loop of `Parser::tokenize`: a remaining
non-blank accumulator becomes an unquoted word unless a quote is still open,
in which case the partial word is discarded. -/
def finishTok (st : LexState) : List Token :=
  if !blank st.current && !st.singleQuotes && !st.doubleQuotes then
    st.tokens ++ [Token.word st.current Quoting.unquoted]
  else st.tokens

/-- `Parser::tokenize`: run the character loop from the initial state, then
apply the final flush. -/
def tokenize (input : List Char) : List Token :=
  finishTok (tokenizeLoop initState input)

/-- The process environment, read-only: a partial map from variable names to
values (Rust `std::env::var`). -/
abbrev Env := List Char → Option (List Char)

/-- Environment lookup as used in the expansion closure:
`env::var(k).unwrap_or_default()`, an unset variable yielding the empty
string. -/
def lookupEnv (env : Env) (k : List Char) : List Char :=
  (env k).getD []

/-- Scanner realizing `variable_regex.replace_all` for the regex
`\$([a-zA-Z0-9_]+|\$|!)`: `pending = some acc` means a variable-name run `acc`
after a `$` is being accumulated; when the run ends it is replaced by the
environment lookup.  `$$` and `$!` are replaced by the lookup of `$` and `!`,
and a `$` followed by anything else stays literal. -/
def expandGo (env : Env) : Option (List Char) → List Char → List Char
  | some acc, [] => lookupEnv env acc
  | none, [] => []
  | some acc, c :: rest =>
    if isVarChar c then
      expandGo env (some (acc ++ [c])) rest
    else if c == '$' then
      lookupEnv env acc ++
        (match rest with
         | d :: rest2 =>
           if isVarChar d then expandGo env (some [d]) rest2
           else if d == '$' then lookupEnv env ['$'] ++ expandGo env none rest2
           else if d == '!' then lookupEnv env ['!'] ++ expandGo env none rest2
           else '$' :: expandGo env none (d :: rest2)
         | [] => ['$'])
    else
      lookupEnv env acc ++ c :: expandGo env none rest
  | none, c :: rest =>
    if c == '$' then
      match rest with
      | d :: rest2 =>
        if isVarChar d then expandGo env (some [d]) rest2
        else if d == '$' then lookupEnv env ['$'] ++ expandGo env none rest2
        else if d == '!' then lookupEnv env ['!'] ++ expandGo env none rest2
        else '$' :: expandGo env none (d :: rest2)
      | [] => ['$']
    else
      c :: expandGo env none rest

/-- Variable expansion of one word, `variable_regex.replace_all` over the whole
word starting outside any run. -/
def expandVars (env : Env) (w : List Char) : List Char :=
  expandGo env none w

/-- Command for an external program (struct ExternalCommand): `cmd` is the
program, `args` the full argv. -/
structure ExternalCommand where
  cmd : List Char
  args : List (List Char)
deriving DecidableEq, Repr

/-- Builtin commands (enum BuiltinCommand). -/
inductive BuiltinCommand where
  | exit
  | cd (args : List (List Char))
deriving DecidableEq, Repr

/-- A parsed command (enum Command). -/
inductive Command where
  | builtin (b : BuiltinCommand)
  | external (e : ExternalCommand)
deriving DecidableEq, Repr

/-- Result of `Parser::parse`.  `panicOOB` records that the Rust code evaluates
`args[0]` on an empty vector, an index-out-of-bounds panic that aborts the
process. -/
inductive ParseResult where
  | panicOOB
  | noCmd
  | ok (c : Command)
deriving DecidableEq, Repr

/-- The argument collection inside `Parser::parse`: whitespace and operator
tokens are dropped, single-quoted words pass verbatim, all other words get
variable expansion. -/
def argsOf (env : Env) (tokens : List Token) : List (List Char) :=
  tokens.filterMap fun t =>
    match t with
    | Token.word w Quoting.singleQuoted => some w
    | Token.word w _ => some (expandVars env w)
    | _ => none

/-- `Parser::parse`: nothing for an empty token list; otherwise collect `args`
and dispatch on `args[0]` — which panics when `args` is empty. -/
def parse (env : Env) (tokens : List Token) : ParseResult :=
  if tokens = [] then ParseResult.noCmd
  else
    match argsOf env tokens with
    | [] => ParseResult.panicOOB
    | a :: rest =>
      if a = "exit".toList then ParseResult.ok (Command.builtin BuiltinCommand.exit)
      else if a = "cd".toList then ParseResult.ok (Command.builtin (BuiltinCommand.cd (a :: rest)))
      else ParseResult.ok (Command.external { cmd := a, args := a :: rest })

/-- Outcome of the cd builtin: whether `handle_builtin` returned `Err(EINVAL)`,
the diagnostics printed, and the resulting working directory. -/
structure CdResult where
  errReturned : Bool
  reported : List (List Char)
  cwd : List Char
deriving DecidableEq, Repr

/-- The Cd arm of `Shell::handle_builtin`.  `chdirRes` models the `chdir`
system call: success or an error message.  Arity: two args use `args[1]`, one
arg uses `HOME` (reporting and returning `Err` when unset), anything else
reports "too many arguments" and returns `Err`. -/
def handleCd (env : Env) (chdirRes : List Char → Except (List Char) Unit)
    (cwd : List Char) (args : List (List Char)) : CdResult :=
  match args with
  | [_, t] =>
    match chdirRes t with
    | Except.ok _ => { errReturned := false, reported := [], cwd := t }
    | Except.error e => { errReturned := false, reported := ["cd: ".toList ++ e], cwd := cwd }
  | [_] =>
    match env ("HOME".toList) with
    | some h =>
      match chdirRes h with
      | Except.ok _ => { errReturned := false, reported := [], cwd := h }
      | Except.error e => { errReturned := false, reported := ["cd: ".toList ++ e], cwd := cwd }
    | none => { errReturned := true, reported := ["cd: HOME is not set".toList], cwd := cwd }
  | _ => { errReturned := true, reported := ["cd: too many arguments".toList], cwd := cwd }

/-- How one iteration of `Shell::run` ends: the loop continues, the process
exits 0 (exit builtin), the process aborts in a Rust panic, or an `Err`
propagates out of `run` through the `?` operator and `main`'s `expect` aborts
the shell. -/
inductive LoopOut where
  | next
  | exitZero
  | panicked
  | fatal
deriving DecidableEq, Repr

/-- One iteration of the REPL loop of `Shell::run` on one input line (as
returned by `read_line`, so normally ending in a newline): tokenize, parse,
dispatch, returning how the iteration ends together with the resulting working
directory. -/
def replStep (env : Env) (chdirRes : List Char → Except (List Char) Unit)
    (cwd : List Char) (line : List Char) : LoopOut × List Char :=
  match parse env (tokenize line) with
  | ParseResult.noCmd => (LoopOut.next, cwd)
  | ParseResult.panicOOB => (LoopOut.panicked, cwd)
  | ParseResult.ok (Command.builtin BuiltinCommand.exit) => (LoopOut.exitZero, cwd)
  | ParseResult.ok (Command.builtin (BuiltinCommand.cd args)) =>
    let r := handleCd env chdirRes cwd args
    if r.errReturned then (LoopOut.fatal, r.cwd) else (LoopOut.next, r.cwd)
  | ParseResult.ok (Command.external _) => (LoopOut.next, cwd)

/-- The empty environment: every variable unset. -/
def envNone : Env := fun _ => none

/-- A `chdir` model in which every target exists. -/
def chdirAlwaysOk : List Char → Except (List Char) Unit := fun _ => Except.ok ()

/-- The single-quote character, named to keep it out of string literals. -/
def sq : Char := '\''

/-! Helper lemmas about the tokenizer state machine. -/

@[simp] theorem preClear_singleQuotes (st : LexState) :
    (preClear st).singleQuotes = st.singleQuotes := by
  unfold preClear; split <;> rfl

@[simp] theorem preClear_doubleQuotes (st : LexState) :
    (preClear st).doubleQuotes = st.doubleQuotes := by
  unfold preClear; split <;> rfl

@[simp] theorem preClear_tokens (st : LexState) :
    (preClear st).tokens = st.tokens := by
  unfold preClear; split <;> rfl

theorem preClear_curOK (st : LexState) :
    (preClear st).singleQuotes = false → (preClear st).doubleQuotes = false →
    blank (preClear st).current = true → (preClear st).current = [] := by
  unfold preClear
  split
  · intro _ _ _; rfl
  · next hcond =>
    intro hsq hdq hb
    exact absurd (by simp [hsq, hdq, hb]) hcond

/-- Whitespace-token test. -/
def isWSTok : Token → Bool
  | Token.whitespace => true
  | _ => false

/-- No two adjacent tokens are both `whitespace`. -/
def noConsecWS : List Token → Bool
  | [] => true
  | [_] => true
  | a :: b :: rest => !(isWSTok a && isWSTok b) && noConsecWS (b :: rest)

theorem noConsecWS_append (ts : List Token) (t : Token)
    (h : noConsecWS ts = true)
    (h2 : isWSTok t = true → ts.getLast? ≠ some Token.whitespace) :
    noConsecWS (ts ++ [t]) = true := by
  induction ts with
  | nil => rfl
  | cons a ts ih =>
    cases ts with
    | nil =>
      by_cases hw : isWSTok t = true
      · have ha : a ≠ Token.whitespace := by
          intro he
          exact (h2 hw) (by simp [he])
        have ha2 : isWSTok a = false := by
          cases a <;> simp_all [isWSTok]
        simp [noConsecWS, ha2]
      · have hw2 : isWSTok t = false := by simpa using hw
        simp [noConsecWS, hw2]
    | cons b ts2 =>
      simp only [noConsecWS, Bool.and_eq_true, Bool.not_eq_true'] at h
      obtain ⟨hab, hrest⟩ := h
      have hlast : isWSTok t = true → (b :: ts2).getLast? ≠ some Token.whitespace := by
        intro hw
        have := h2 hw
        simpa [List.getLast?_cons_cons] using this
      have := ih hrest hlast
      simpa [noConsecWS, hab] using this

/-- The two token-stream invariants together: no adjacent whitespace tokens,
and every unquoted word is non-blank. -/
def tokensOK (ts : List Token) : Prop :=
  noConsecWS ts = true ∧
  ∀ w : List Char, Token.word w Quoting.unquoted ∈ ts → blank w = false

theorem tokensOK_nil : tokensOK [] :=
  ⟨rfl, by simp⟩

theorem tokensOK_push_word (ts : List Token) (w : List Char) (q : Quoting)
    (h : tokensOK ts) (hw : q = Quoting.unquoted → blank w = false) :
    tokensOK (ts ++ [Token.word w q]) := by
  constructor
  · exact noConsecWS_append _ _ h.1 (by intro hws; simp [isWSTok] at hws)
  · intro w2 hmem
    rcases List.mem_append.mp hmem with h1 | h2
    · exact h.2 w2 h1
    · simp only [List.mem_singleton, Token.word.injEq] at h2
      obtain ⟨hww, hq⟩ := h2
      subst hww
      exact hw hq.symm

theorem tokensOK_push_op (ts : List Token) (o : Operator) (h : tokensOK ts) :
    tokensOK (ts ++ [Token.op o]) := by
  constructor
  · exact noConsecWS_append _ _ h.1 (by intro hws; simp [isWSTok] at hws)
  · intro w2 hmem
    rcases List.mem_append.mp hmem with h1 | h2
    · exact h.2 w2 h1
    · simp at h2

theorem tokensOK_push_ws (ts : List Token) (h : tokensOK ts)
    (hl : ts.getLast? ≠ some Token.whitespace) :
    tokensOK (ts ++ [Token.whitespace]) := by
  constructor
  · exact noConsecWS_append _ _ h.1 (fun _ => hl)
  · intro w2 hmem
    rcases List.mem_append.mp hmem with h1 | h2
    · exact h.2 w2 h1
    · simp at h2

theorem flushWord_tokens (q : Quoting) (st : LexState) :
    (flushWord q st).tokens = st.tokens ++ [Token.word st.current q] := rfl

theorem wsStep_tokensOK (st : LexState) (h : tokensOK st.tokens) :
    tokensOK (wsStep st).tokens := by
  have h1 : tokensOK ((if blank st.current then st else flushWord Quoting.unquoted st).tokens) := by
    by_cases hb : blank st.current = true
    · simpa [hb] using h
    · have hb2 : blank st.current = false := by simpa using hb
      simp only [hb2, Bool.false_eq_true, if_false, flushWord_tokens]
      exact tokensOK_push_word _ _ _ h (fun _ => hb2)
  unfold wsStep
  set st1 := if blank st.current then st else flushWord Quoting.unquoted st with hst1
  cases hl : st1.tokens.getLast? with
  | none =>
    simp only [hl]
    exact tokensOK_push_ws _ h1 (by simp [hl])
  | some t =>
    cases t with
    | whitespace => simpa [hl] using h1
    | word w q =>
      simp only [hl]
      exact tokensOK_push_ws _ h1 (by simp [hl])
    | op o =>
      simp only [hl]
      exact tokensOK_push_ws _ h1 (by simp [hl])

theorem squoteStep_tokensOK (st : LexState)
    (hcur : st.singleQuotes = false → st.doubleQuotes = false → blank st.current = true → st.current = [])
    (hdq : st.doubleQuotes = false) (h : tokensOK st.tokens) :
    tokensOK (squoteStep st).tokens := by
  unfold squoteStep
  by_cases hc : st.current = []
  · simpa [hc] using h
  · simp only [hc, if_false, flushWord_tokens]
    apply tokensOK_push_word _ _ _ h
    intro hq
    by_cases hsq : st.singleQuotes = true
    · simp [hsq] at hq
    · have hsq2 : st.singleQuotes = false := by simpa using hsq
      by_cases hb : blank st.current = true
      · exact absurd (hcur hsq2 hdq hb) hc
      · simpa using hb

theorem dquoteStep_tokensOK (st : LexState)
    (hcur : st.singleQuotes = false → st.doubleQuotes = false → blank st.current = true → st.current = [])
    (hsq : st.singleQuotes = false) (h : tokensOK st.tokens) :
    tokensOK (dquoteStep st).tokens := by
  unfold dquoteStep
  by_cases hc : st.current = []
  · simpa [hc] using h
  · simp only [hc, if_false, flushWord_tokens]
    apply tokensOK_push_word _ _ _ h
    intro hq
    by_cases hdq : st.doubleQuotes = true
    · simp [hdq] at hq
    · have hdq2 : st.doubleQuotes = false := by simpa using hdq
      by_cases hb : blank st.current = true
      · exact absurd (hcur hsq hdq2 hb) hc
      · simpa using hb

theorem opStep_tokensOK (st : LexState) (o : Operator) (h : tokensOK st.tokens) :
    tokensOK (opStep st o).tokens := by
  have h1 : tokensOK ((if blank st.current then st else flushWord Quoting.unquoted st).tokens) := by
    by_cases hb : blank st.current = true
    · simpa [hb] using h
    · have hb2 : blank st.current = false := by simpa using hb
      simp only [hb2, Bool.false_eq_true, if_false, flushWord_tokens]
      exact tokensOK_push_word _ _ _ h (fun _ => hb2)
  unfold opStep
  exact tokensOK_push_op _ _ h1

theorem tokenizeLoop_tokensOK : ∀ (n : Nat) (cs : List Char), cs.length ≤ n →
    ∀ st : LexState, tokensOK st.tokens → tokensOK (tokenizeLoop st cs).tokens := by
  intro n
  induction n with
  | zero =>
    intro cs hlen st h
    have hnil : cs = [] := List.length_eq_zero.mp (Nat.le_zero.mp hlen)
    subst hnil
    simpa [tokenizeLoop] using h
  | succ n ih =>
    intro cs hlen st h
    have h1 : tokensOK (preClear st).tokens := by simpa using h
    have hcur := preClear_curOK st
    match cs with
    | [] => simpa [tokenizeLoop] using h
    | [c] =>
      simp only [tokenizeLoop]
      by_cases hw : (isWhitespaceChar c && !(preClear st).singleQuotes && !(preClear st).doubleQuotes) = true
      · rw [if_pos hw]
        exact ih [] (by simp) _ (wsStep_tokensOK _ h1)
      · rw [if_neg hw]
        by_cases hq1 : (c == '\'' && !(preClear st).doubleQuotes) = true
        · rw [if_pos hq1]
          simp only [Bool.and_eq_true, Bool.not_eq_true'] at hq1
          exact ih [] (by simp) _ (squoteStep_tokensOK _ hcur hq1.2 h1)
        · rw [if_neg hq1]
          by_cases hq2 : (c == '"' && !(preClear st).singleQuotes) = true
          · rw [if_pos hq2]
            simp only [Bool.and_eq_true, Bool.not_eq_true'] at hq2
            exact ih [] (by simp) _ (dquoteStep_tokensOK _ hcur hq2.2 h1)
          · rw [if_neg hq2]
            by_cases ha : (c == '&' && !(preClear st).singleQuotes && !(preClear st).doubleQuotes) = true
            · rw [if_pos ha]
              exact ih [] (by simp) _ (opStep_tokensOK _ _ h1)
            · rw [if_neg ha]
              by_cases hs : (c == ';' && !(preClear st).singleQuotes && !(preClear st).doubleQuotes) = true
              · rw [if_pos hs]
                exact ih [] (by simp) _ (opStep_tokensOK _ _ h1)
              · rw [if_neg hs]
                by_cases hb : (c == '\\') = true
                · rw [if_pos hb]
                  exact ih [] (by simp) _ h1
                · rw [if_neg hb]
                  exact ih [] (by simp) _ (by simpa using h1)
    | c :: c2 :: cs2 =>
      have hlen2 : (c2 :: cs2).length ≤ n := by
        simp only [List.length_cons] at hlen ⊢
        omega
      have hlen3 : cs2.length ≤ n := by
        simp only [List.length_cons] at hlen
        omega
      simp only [tokenizeLoop]
      by_cases hw : (isWhitespaceChar c && !(preClear st).singleQuotes && !(preClear st).doubleQuotes) = true
      · rw [if_pos hw]
        exact ih _ hlen2 _ (wsStep_tokensOK _ h1)
      · rw [if_neg hw]
        by_cases hq1 : (c == '\'' && !(preClear st).doubleQuotes) = true
        · rw [if_pos hq1]
          simp only [Bool.and_eq_true, Bool.not_eq_true'] at hq1
          exact ih _ hlen2 _ (squoteStep_tokensOK _ hcur hq1.2 h1)
        · rw [if_neg hq1]
          by_cases hq2 : (c == '"' && !(preClear st).singleQuotes) = true
          · rw [if_pos hq2]
            simp only [Bool.and_eq_true, Bool.not_eq_true'] at hq2
            exact ih _ hlen2 _ (dquoteStep_tokensOK _ hcur hq2.2 h1)
          · rw [if_neg hq2]
            by_cases ha : (c == '&' && !(preClear st).singleQuotes && !(preClear st).doubleQuotes) = true
            · rw [if_pos ha]
              by_cases ha2 : (c2 == '&') = true
              · rw [if_pos ha2]
                exact ih _ hlen3 _ (opStep_tokensOK _ _ h1)
              · rw [if_neg ha2]
                exact ih _ hlen2 _ (opStep_tokensOK _ _ h1)
            · rw [if_neg ha]
              by_cases hs : (c == ';' && !(preClear st).singleQuotes && !(preClear st).doubleQuotes) = true
              · rw [if_pos hs]
                exact ih _ hlen2 _ (opStep_tokensOK _ _ h1)
              · rw [if_neg hs]
                by_cases hb : (c == '\\') = true
                · rw [if_pos hb]
                  exact ih _ hlen3 _ (by simpa using h1)
                · rw [if_neg hb]
                  exact ih _ hlen2 _ (by simpa using h1)

theorem tokenize_tokensOK (input : List Char) : tokensOK (tokenize input) := by
  unfold tokenize finishTok
  have h := tokenizeLoop_tokensOK (input.length) input le_rfl initState tokensOK_nil
  set st := tokenizeLoop initState input with hst
  by_cases hc : (!blank st.current && !st.singleQuotes && !st.doubleQuotes) = true
  · rw [if_pos hc]
    simp only [Bool.and_eq_true, Bool.not_eq_true'] at hc
    exact tokensOK_push_word _ _ _ h (fun _ => hc.1.1)
  · rw [if_neg hc]
    exact h

/-- C6: for every input string, the token sequence produced by tokenize never
contains two consecutive Whitespace tokens: each run of unquoted whitespace
characters yields at most one Whitespace token. -/
theorem no_consecutive_whitespace (input : List Char) :
    noConsecWS (tokenize input) = true :=
  (tokenize_tokensOK input).1

/-- C10: every Word token tokenize produces with Unquoted tagging contains a
non-whitespace character; a whitespace-only word can only be emitted tagged
SingleQuoted or DoubleQuoted. -/
theorem unquoted_word_nonblank :
    (∀ input w : List Char,
      Token.word w Quoting.unquoted ∈ tokenize input → blank w = false) ∧
    (∀ (input w : List Char) (q : Quoting),
      Token.word w q ∈ tokenize input → blank w = true →
      q = Quoting.singleQuoted ∨ q = Quoting.doubleQuoted) := by
  constructor
  · intro input w hmem
    exact (tokenize_tokensOK input).2 w hmem
  · intro input w q hmem hb
    cases q with
    | unquoted => exact absurd hb (by simp [(tokenize_tokensOK input).2 w hmem])
    | singleQuoted => exact Or.inl rfl
    | doubleQuoted => exact Or.inr rfl

/-- Witness for C10 at the concrete input "ab": the unquoted word it produces
is not blank. -/
theorem unquoted_word_nonblank_witness :
    blank ("ab".toList) = false :=
  unquoted_word_nonblank.1 ("ab".toList) ("ab".toList) (by decide)

/-! Variable expansion lemmas. -/

theorem isVarChar_dollar : isVarChar '$' = false := by decide

theorem isVarChar_bang : isVarChar '!' = false := by decide

theorem expandGo_none_cons (env : Env) (c : Char) (rest : List Char)
    (hc : (c == '$') = false) :
    expandGo env none (c :: rest) = c :: expandGo env none rest := by
  cases rest <;> simp [expandGo, hc]

theorem expandGo_some_varchar (env : Env) (acc : List Char) (c : Char) (rest : List Char)
    (h : isVarChar c = true) :
    expandGo env (some acc) (c :: rest) = expandGo env (some (acc ++ [c])) rest := by
  cases rest <;> simp [expandGo, h]

theorem expandGo_none_dollar_var (env : Env) (d : Char) (rest2 : List Char)
    (h : isVarChar d = true) :
    expandGo env none ('$' :: d :: rest2) = expandGo env (some [d]) rest2 := by
  cases rest2 <;> simp [expandGo, h]

theorem expandGo_none_dollar_dollar (env : Env) (rest2 : List Char) :
    expandGo env none ('$' :: '$' :: rest2) =
      lookupEnv env ['$'] ++ expandGo env none rest2 := by
  cases rest2 <;> simp [expandGo, isVarChar_dollar]

theorem expandGo_none_dollar_bang (env : Env) (rest2 : List Char) :
    expandGo env none ('$' :: '!' :: rest2) =
      lookupEnv env ['!'] ++ expandGo env none rest2 := by
  cases rest2 <;> simp [expandGo, isVarChar_bang]

theorem expandGo_none_dollar_other (env : Env) (d : Char) (rest : List Char)
    (h1 : isVarChar d = false) (h2 : (d == '$') = false) (h3 : (d == '!') = false) :
    expandGo env none ('$' :: d :: rest) = '$' :: expandGo env none (d :: rest) := by
  cases rest <;> simp [expandGo, h1, h2, h3]

theorem expandGo_some_end (env : Env) (acc : List Char) (c : Char) (rest : List Char)
    (h : isVarChar c = false) :
    expandGo env (some acc) (c :: rest) =
      lookupEnv env acc ++ expandGo env none (c :: rest) := by
  by_cases hd : (c == '$') = true
  · cases rest <;> simp [expandGo, h, hd]
  · have hd2 : (c == '$') = false := by simpa using hd
    cases rest <;> simp [expandGo, h, hd2]

theorem expandGo_none_no_dollar (env : Env) :
    ∀ w : List Char, '$' ∉ w → expandGo env none w = w := by
  intro w
  induction w with
  | nil => intro _; rfl
  | cons c rest ih =>
    intro h
    rw [List.mem_cons] at h
    push_neg at h
    have hc : (c == '$') = false := by
      simp only [beq_eq_false_iff_ne]
      exact fun hcc => h.1 (hcc ▸ rfl)
    rw [expandGo_none_cons env c rest hc, ih h.2]

theorem expandVars_no_dollar (env : Env) (w : List Char) (h : '$' ∉ w) :
    expandVars env w = w :=
  expandGo_none_no_dollar env w h

/-- C3: parsing the tokens of "hello && world" drops the And operator and the
Whitespace tokens and yields exactly one Command, an External command with
program "hello" and argv ["hello", "world"]; no chaining occurs and the
operator text never appears in argv — for every environment. -/
theorem and_operator_flattened : ∀ env : Env,
    tokenize ("hello && world".toList) =
      [Token.word ("hello".toList) Quoting.unquoted, Token.whitespace,
       Token.op Operator.and, Token.whitespace,
       Token.word ("world".toList) Quoting.unquoted] ∧
    parse env (tokenize ("hello && world".toList)) =
      ParseResult.ok (Command.external
        { cmd := "hello".toList, args := ["hello".toList, "world".toList] }) := by
  intro env
  have htok : tokenize ("hello && world".toList) =
      [Token.word ("hello".toList) Quoting.unquoted, Token.whitespace,
       Token.op Operator.and, Token.whitespace,
       Token.word ("world".toList) Quoting.unquoted] := by decide
  refine ⟨htok, ?_⟩
  rw [htok]
  have h1 : expandVars env ("hello".toList) = "hello".toList :=
    expandVars_no_dollar env _ (by decide)
  have h2 : expandVars env ("world".toList) = "world".toList :=
    expandVars_no_dollar env _ (by decide)
  have hargs : argsOf env
      [Token.word ("hello".toList) Quoting.unquoted, Token.whitespace,
       Token.op Operator.and, Token.whitespace,
       Token.word ("world".toList) Quoting.unquoted] =
      [expandVars env ("hello".toList), expandVars env ("world".toList)] := rfl
  unfold parse
  rw [hargs, h1, h2]
  decide

/-! Whitespace-only input: the tokenizer emits exactly one whitespace token
and the parser then indexes an empty argument vector. -/

theorem tokenizeLoop_cons_ws (st : LexState) (c : Char) (cs : List Char)
    (h1 : isWhitespaceChar c = true) (h2 : st.singleQuotes = false)
    (h3 : st.doubleQuotes = false) :
    tokenizeLoop st (c :: cs) = tokenizeLoop (wsStep (preClear st)) cs := by
  cases cs with
  | nil => simp [tokenizeLoop, h1, h2, h3]
  | cons c2 cs2 => simp [tokenizeLoop, h1, h2, h3]

theorem tokenizeLoop_ws_only : ∀ cs : List Char,
    (∀ c ∈ cs, isWhitespaceChar c = true) →
    ∀ ts : List Token, ts.getLast? = some Token.whitespace →
    tokenizeLoop
        { singleQuotes := false, doubleQuotes := false, current := [], tokens := ts } cs =
      { singleQuotes := false, doubleQuotes := false, current := [], tokens := ts } := by
  intro cs
  induction cs with
  | nil => intro _ ts _; rfl
  | cons c cs ih =>
    intro hall ts hlast
    have hc : isWhitespaceChar c = true := hall c (List.mem_cons_self c cs)
    rw [tokenizeLoop_cons_ws _ c cs hc rfl rfl]
    have hstep : wsStep (preClear
        { singleQuotes := false, doubleQuotes := false, current := [], tokens := ts }) =
        { singleQuotes := false, doubleQuotes := false, current := [], tokens := ts } := by
      simp [preClear, wsStep, blank, hlast]
    rw [hstep]
    exact ih (fun c2 h2 => hall c2 (List.mem_cons_of_mem c h2)) ts hlast

/-- C1: contrary to the claim, a blank or whitespace-only input line is NOT
silently ignored: it tokenizes to the single token sequence consisting of one
Whitespace token, which is non-empty, so parse reaches the dispatch, filters
the Whitespace token out, and evaluates args at index 0 of an empty vector —
an index-out-of-bounds panic that aborts the shell.  Only the genuinely empty
token sequence yields no Command. -/
theorem whitespace_only_line_panics :
    (∀ line : List Char, line ≠ [] → (∀ c ∈ line, isWhitespaceChar c = true) →
      tokenize line = [Token.whitespace] ∧
      ∀ env : Env, parse env (tokenize line) = ParseResult.panicOOB) ∧
    replStep envNone chdirAlwaysOk ("/home/user".toList) ("\n".toList) =
      (LoopOut.panicked, "/home/user".toList) ∧
    parse envNone [] = ParseResult.noCmd := by
  refine ⟨?_, by decide, by decide⟩
  intro line hne hall
  have htok : tokenize line = [Token.whitespace] := by
    match line, hne with
    | c :: cs, _ =>
      have hc : isWhitespaceChar c = true := hall c (List.mem_cons_self c cs)
      unfold tokenize
      rw [tokenizeLoop_cons_ws initState c cs hc rfl rfl]
      have h1 : wsStep (preClear initState) =
          { singleQuotes := false, doubleQuotes := false, current := [],
            tokens := [Token.whitespace] } := by
        simp [preClear, wsStep, initState, blank]
      rw [h1,
        tokenizeLoop_ws_only cs (fun c2 h2 => hall c2 (List.mem_cons_of_mem c h2))
          [Token.whitespace] rfl]
      rfl
  refine ⟨htok, ?_⟩
  intro env
  rw [htok]
  rfl

/-- Witness for C1 at the concrete whitespace-only line " \t\n". -/
theorem whitespace_only_line_panics_witness :
    tokenize (" \t\n".toList) = [Token.whitespace] :=
  (whitespace_only_line_panics.1 (" \t\n".toList) (by decide) (by decide)).1

/-- C2: for cd with bad arity (args length neither 1 nor 2, or length 1 with
HOME unset) the error IS reported and the working directory IS unchanged, but
`handle_builtin` returns Err(EINVAL), and — contrary to the claim — the REPL
loop does NOT continue: `Shell::run` propagates the error through the `?`
operator and the shell aborts, as the two concrete REPL iterations show. -/
theorem cd_bad_arity_aborts :
    (∀ (env : Env) (chdirRes : List Char → Except (List Char) Unit)
        (cwd : List Char) (args : List (List Char)),
      (args.length ≠ 1 ∧ args.length ≠ 2) ∨
        (args.length = 1 ∧ env ("HOME".toList) = none) →
      (handleCd env chdirRes cwd args).errReturned = true ∧
      (handleCd env chdirRes cwd args).reported ≠ [] ∧
      (handleCd env chdirRes cwd args).cwd = cwd) ∧
    replStep envNone chdirAlwaysOk ("/w".toList) ("cd a b\n".toList) =
      (LoopOut.fatal, "/w".toList) ∧
    replStep envNone chdirAlwaysOk ("/w".toList) ("cd\n".toList) =
      (LoopOut.fatal, "/w".toList) := by
  refine ⟨?_, by decide, by decide⟩
  intro env chdirRes cwd args h
  match args with
  | [] =>
    exact ⟨rfl, by simp [handleCd], rfl⟩
  | [a] =>
    rcases h with ⟨h1, _⟩ | ⟨_, hhome⟩
    · exact absurd rfl h1
    · have hhome2 : env ['H', 'O', 'M', 'E'] = none := hhome
      simp [handleCd, hhome2]
  | [a, b] =>
    rcases h with ⟨_, h2⟩ | ⟨h1, _⟩
    · exact absurd rfl h2
    · simp at h1
  | a :: b :: c :: rest =>
    exact ⟨rfl, by simp [handleCd], rfl⟩

/-- Witness for C2: cd with two trailing arguments reports, keeps the working
directory, and returns the error that kills the loop. -/
theorem cd_bad_arity_aborts_witness :
    (handleCd envNone chdirAlwaysOk ("/w".toList)
      ["cd".toList, "a".toList, "b".toList]).errReturned = true ∧
    (handleCd envNone chdirAlwaysOk ("/w".toList)
      ["cd".toList, "a".toList, "b".toList]).reported ≠ [] ∧
    (handleCd envNone chdirAlwaysOk ("/w".toList)
      ["cd".toList, "a".toList, "b".toList]).cwd = "/w".toList :=
  cd_bad_arity_aborts.1 envNone chdirAlwaysOk ("/w".toList) _
    (Or.inl ⟨by decide, by decide⟩)

/-! Characterization of one regex match: a maximal variable-name run after a
dollar sign is replaced by the environment lookup of that name. -/

/-- The remainder starts with a character outside the variable-name class (or
is empty) — the condition under which a name run is maximal. -/
def headNotVar : List Char → Bool
  | [] => true
  | d :: _ => !isVarChar d

theorem expandGo_run (env : Env) : ∀ name rest acc : List Char,
    (∀ c ∈ name, isVarChar c = true) → headNotVar rest = true →
    expandGo env (some acc) (name ++ rest) =
      lookupEnv env (acc ++ name) ++ expandGo env none rest := by
  intro name
  induction name with
  | nil =>
    intro rest acc _ hrest
    cases rest with
    | nil => simp [expandGo]
    | cons d rest2 =>
      have hd : isVarChar d = false := by simpa [headNotVar] using hrest
      rw [List.nil_append, expandGo_some_end env acc d rest2 hd]
      simp
  | cons a name ih =>
    intro rest acc hall hrest
    have ha : isVarChar a = true := hall a (List.mem_cons_self a name)
    rw [List.cons_append, expandGo_some_varchar env acc a _ ha,
      ih rest (acc ++ [a]) (fun c h => hall c (List.mem_cons_of_mem a h)) hrest]
    simp

/-- C4: during parsing, variable expansion is applied to every Word token
except SingleQuoted ones; a dollar followed by a maximal run of ASCII
letters/digits/underscores, or by a literal dollar, or by a literal bang, is
replaced by the environment lookup of that name, and an unset variable
substitutes the empty string — never an error and never the literal text left
in place.  The final four conjuncts make the equations cover EVERY occurrence
anywhere in the word, not just a word-initial one: the empty word expands to
itself, a leading non-dollar character passes through with expansion
continuing on the remainder, a dollar before a character outside the three
recognized forms stays literal with expansion continuing from that character,
and a trailing lone dollar stays literal — so every input word falls under
exactly one equation at each step of the traversal. -/
theorem variable_expansion_spec :
    (∀ (env : Env) (w : List Char) (ts : List Token),
      argsOf env (Token.word w Quoting.singleQuoted :: ts) = w :: argsOf env ts) ∧
    (∀ (env : Env) (w : List Char) (q : Quoting) (ts : List Token),
      q ≠ Quoting.singleQuoted →
      argsOf env (Token.word w q :: ts) = expandVars env w :: argsOf env ts) ∧
    (∀ (env : Env) (name rest : List Char),
      name ≠ [] → (∀ c ∈ name, isVarChar c = true) → headNotVar rest = true →
      expandVars env ('$' :: (name ++ rest)) =
        lookupEnv env name ++ expandVars env rest) ∧
    (∀ (env : Env) (rest : List Char),
      expandVars env ('$' :: '$' :: rest) = lookupEnv env ['$'] ++ expandVars env rest) ∧
    (∀ (env : Env) (rest : List Char),
      expandVars env ('$' :: '!' :: rest) = lookupEnv env ['!'] ++ expandVars env rest) ∧
    (∀ (env : Env) (k : List Char), env k = none → lookupEnv env k = []) ∧
    (∀ env : Env, expandVars env [] = []) ∧
    (∀ (env : Env) (c : Char) (rest : List Char), c ≠ '$' →
      expandVars env (c :: rest) = c :: expandVars env rest) ∧
    (∀ (env : Env) (d : Char) (rest : List Char),
      isVarChar d = false → d ≠ '$' → d ≠ '!' →
      expandVars env ('$' :: d :: rest) = '$' :: expandVars env (d :: rest)) ∧
    (∀ env : Env, expandVars env ['$'] = ['$']) := by
  refine ⟨?_, ?_, ?_, ?_, ?_, ?_, ?_, ?_, ?_, ?_⟩
  · intro env w ts
    simp [argsOf, List.filterMap_cons]
  · intro env w q ts hq
    cases q with
    | singleQuoted => exact absurd rfl hq
    | unquoted => simp [argsOf, List.filterMap_cons, expandVars]
    | doubleQuoted => simp [argsOf, List.filterMap_cons, expandVars]
  · intro env name rest hne hall hrest
    obtain ⟨a, name2, rfl⟩ : ∃ a name2, name = a :: name2 := by
      cases name with
      | nil => exact absurd rfl hne
      | cons a name2 => exact ⟨a, name2, rfl⟩
    have ha : isVarChar a = true := hall a (List.mem_cons_self a name2)
    show expandGo env none ('$' :: a :: (name2 ++ rest)) = _
    rw [expandGo_none_dollar_var env a _ ha,
      expandGo_run env name2 rest [a] (fun c h => hall c (List.mem_cons_of_mem a h)) hrest]
    rfl
  · intro env rest
    exact expandGo_none_dollar_dollar env rest
  · intro env rest
    exact expandGo_none_dollar_bang env rest
  · intro env k h
    simp [lookupEnv, h]
  · intro env
    rfl
  · intro env c rest hc
    exact expandGo_none_cons env c rest (beq_eq_false_iff_ne.mpr hc)
  · intro env d rest h1 h2 h3
    exact expandGo_none_dollar_other env d rest h1
      (beq_eq_false_iff_ne.mpr h2) (beq_eq_false_iff_ne.mpr h3)
  · intro env
    rfl

/-- An environment with exactly the variable FOO set, for the witness. -/
def envFOO : Env := fun k => if k = "FOO".toList then some ("bar".toList) else none

/-- Witness for C4: a variable occurrence in the middle of a word — the
literal prefix passes through and the dollar-name run after it is replaced by
the lookup of FOO. -/
theorem variable_expansion_spec_witness :
    expandVars envFOO ("a$FOO".toList) =
      'a' :: (lookupEnv envFOO ("FOO".toList) ++ expandVars envFOO []) :=
  (variable_expansion_spec.2.2.2.2.2.2.2.1 envFOO 'a' ('$' :: "FOO".toList)
      (by decide)).trans
    (congrArg (List.cons 'a')
      (variable_expansion_spec.2.2.1 envFOO ("FOO".toList) []
        (by decide) (by decide) (by decide)))

/-! Backslash handling in the tokenizer. -/

/-- C5: in the tokenizer a backslash consumes the next character and appends
its translation to the accumulator (after the usual blank-accumulator clear),
where n, t, r, 0 translate to newline, tab, carriage return, NUL and
everything else is verbatim; a trailing backslash is dropped silently; and all
of this holds in any quoting state, in particular inside single-quote mode. -/
theorem backslash_escapes :
    (∀ (st : LexState) (c : Char) (cs : List Char),
      tokenizeLoop st ('\\' :: c :: cs) =
        tokenizeLoop { preClear st with current := (preClear st).current ++ [escChar c] } cs) ∧
    (∀ st : LexState, tokenizeLoop st ['\\'] = preClear st) ∧
    escChar 'n' = '\n' ∧ escChar 't' = '\t' ∧ escChar 'r' = '\r' ∧ escChar '0' = '\x00' ∧
    (∀ c : Char, c ≠ 'n' → c ≠ 't' → c ≠ 'r' → c ≠ '0' → escChar c = c) ∧
    (∀ (cur : List Char) (ts : List Token) (c : Char) (cs : List Char),
      tokenizeLoop
          { singleQuotes := true, doubleQuotes := false, current := cur, tokens := ts }
          ('\\' :: c :: cs) =
        tokenizeLoop
          { singleQuotes := true, doubleQuotes := false, current := cur ++ [escChar c],
            tokens := ts }
          cs) := by
  have hmain : ∀ (st : LexState) (c : Char) (cs : List Char),
      tokenizeLoop st ('\\' :: c :: cs) =
        tokenizeLoop { preClear st with current := (preClear st).current ++ [escChar c] } cs := by
    intro st c cs
    simp +decide [tokenizeLoop]
  refine ⟨hmain, ?_, rfl, rfl, rfl, rfl, ?_, ?_⟩
  · intro st
    simp +decide [tokenizeLoop]
  · intro c h1 h2 h3 h4
    have e1 : (c == 'n') = false := beq_eq_false_iff_ne.mpr h1
    have e2 : (c == 't') = false := beq_eq_false_iff_ne.mpr h2
    have e3 : (c == 'r') = false := beq_eq_false_iff_ne.mpr h3
    have e4 : (c == '0') = false := beq_eq_false_iff_ne.mpr h4
    simp [escChar, e1, e2, e3, e4]
  · intro cur ts c cs
    rw [hmain]
    simp [preClear]

/-- Witness for C5: an unrecognized escape character is taken verbatim. -/
theorem backslash_escapes_witness : escChar 'x' = 'x' :=
  backslash_escapes.2.2.2.2.2.2.1 'x' (by decide) (by decide) (by decide) (by decide)

/-! Unterminated quotes and adjacent quoted segments. -/

/-- C7: when the loop ends with a quote still open, the partial word is
discarded — the output is exactly the tokens accumulated before it, and they
parse normally; with no quote open, a non-blank accumulator is flushed as an
Unquoted word. -/
theorem unterminated_quote_discards_word :
    (∀ input : List Char,
      (tokenizeLoop initState input).singleQuotes = true ∨
        (tokenizeLoop initState input).doubleQuotes = true →
      tokenize input = (tokenizeLoop initState input).tokens) ∧
    (∀ input : List Char,
      (tokenizeLoop initState input).singleQuotes = false →
      (tokenizeLoop initState input).doubleQuotes = false →
      blank (tokenizeLoop initState input).current = false →
      tokenize input =
        (tokenizeLoop initState input).tokens ++
          [Token.word (tokenizeLoop initState input).current Quoting.unquoted]) ∧
    tokenize ("echo ".toList ++ sq :: "abc".toList) =
      [Token.word ("echo".toList) Quoting.unquoted, Token.whitespace] ∧
    parse envNone (tokenize ("echo ".toList ++ sq :: "abc".toList)) =
      ParseResult.ok (Command.external { cmd := "echo".toList, args := ["echo".toList] }) := by
  refine ⟨?_, ?_, by decide, by decide⟩
  · intro input h
    unfold tokenize finishTok
    rcases h with h | h
    · rw [if_neg (by simp [h])]
    · rw [if_neg (by simp [h])]
  · intro input h1 h2 h3
    unfold tokenize finishTok
    rw [if_pos (by simp [h1, h2, h3])]

/-- Witness for C7 at the concrete input with an unterminated single quote. -/
theorem unterminated_quote_discards_word_witness :
    tokenize ("echo ".toList ++ sq :: "abc".toList) =
      (tokenizeLoop initState ("echo ".toList ++ sq :: "abc".toList)).tokens :=
  unterminated_quote_discards_word.1 _ (Or.inl (by decide))

/-- C8: a double quote inside single-quote mode and a single quote inside
double-quote mode are literal word data (they fall through to the accumulator
arm of the tokenizer), and adjacent quoted segments with no separating
whitespace yield two adjacent Word tokens with no Whitespace between them. -/
theorem quote_inside_other_quote_literal :
    (∀ (st : LexState) (rest : List Char), st.singleQuotes = true →
      tokenizeLoop st ('"' :: rest) =
        tokenizeLoop { st with current := st.current ++ ['"'] } rest) ∧
    (∀ (st : LexState) (rest : List Char), st.doubleQuotes = true →
      tokenizeLoop st (sq :: rest) =
        tokenizeLoop { st with current := st.current ++ [sq] } rest) ∧
    tokenize ("echo ".toList ++ sq :: "hello".toList ++ sq :: '"' :: "world".toList ++ ['"']) =
      [Token.word ("echo".toList) Quoting.unquoted, Token.whitespace,
       Token.word ("hello".toList) Quoting.singleQuoted,
       Token.word ("world".toList) Quoting.doubleQuoted] := by
  have hpre1 : ∀ st : LexState, st.singleQuotes = true → preClear st = st := by
    intro st h
    unfold preClear
    rw [if_neg (by simp [h])]
  have hpre2 : ∀ st : LexState, st.doubleQuotes = true → preClear st = st := by
    intro st h
    unfold preClear
    rw [if_neg (by simp [h])]
  refine ⟨?_, ?_, by decide⟩
  · intro st rest h
    cases rest with
    | nil => simp +decide [tokenizeLoop, hpre1 st h, h]
    | cons c2 cs2 => simp +decide [tokenizeLoop, hpre1 st h, h]
  · intro st rest h
    cases rest with
    | nil => simp +decide [tokenizeLoop, sq, hpre2 st h, h]
    | cons c2 cs2 => simp +decide [tokenizeLoop, sq, hpre2 st h, h]

/-- Witness for C8: a double quote while single-quote mode is open goes into
the accumulator of a concrete state. -/
theorem quote_inside_other_quote_literal_witness :
    tokenizeLoop
        { singleQuotes := true, doubleQuotes := false, current := "he".toList, tokens := [] }
        ['"'] =
      tokenizeLoop
        { singleQuotes := true, doubleQuotes := false, current := "he".toList ++ ['"'],
          tokens := [] }
        [] :=
  quote_inside_other_quote_literal.1
    { singleQuotes := true, doubleQuotes := false, current := "he".toList, tokens := [] }
    [] rfl

/-- C9: every Command parse returns is dispatched on the first collected word:
the literal "exit" gives Builtin Exit, the literal "cd" gives Builtin Cd
retaining the whole args vector including the program name, and anything else
gives an External command whose argv is non-empty and whose argv head equals
its program field. -/
theorem parse_first_word_dispatch :
    ∀ (env : Env) (tokens : List Token) (c : Command),
      parse env tokens = ParseResult.ok c →
      ∃ a rest, argsOf env tokens = a :: rest ∧
        (a = "exit".toList → c = Command.builtin BuiltinCommand.exit) ∧
        (a = "cd".toList → c = Command.builtin (BuiltinCommand.cd (a :: rest))) ∧
        (a ≠ "exit".toList → a ≠ "cd".toList →
          c = Command.external { cmd := a, args := a :: rest }) ∧
        ∀ e : ExternalCommand, c = Command.external e →
          e.args ≠ [] ∧ e.args.head? = some e.cmd := by
  intro env tokens c hp
  unfold parse at hp
  by_cases ht : tokens = []
  · rw [if_pos ht] at hp
    exact absurd hp (by simp)
  · rw [if_neg ht] at hp
    cases hargs : argsOf env tokens with
    | nil => rw [hargs] at hp; exact absurd hp (by simp)
    | cons a rest =>
      rw [hargs] at hp
      have hp2 :
          (if a = "exit".toList then ParseResult.ok (Command.builtin BuiltinCommand.exit)
           else if a = "cd".toList then
             ParseResult.ok (Command.builtin (BuiltinCommand.cd (a :: rest)))
           else ParseResult.ok (Command.external { cmd := a, args := a :: rest })) =
          ParseResult.ok c := hp
      clear hp
      refine ⟨a, rest, rfl, ?_, ?_, ?_, ?_⟩
      · intro ha
        rw [if_pos ha] at hp2
        cases hp2
        rfl
      · intro ha
        by_cases he : a = "exit".toList
        · rw [ha] at he
          exact absurd he (by decide)
        · rw [if_neg he, if_pos ha] at hp2
          cases hp2
          rfl
      · intro he hc
        rw [if_neg he, if_neg hc] at hp2
        cases hp2
        rfl
      · intro e hce
        by_cases he : a = "exit".toList
        · rw [if_pos he] at hp2
          cases hp2
          simp at hce
        · rw [if_neg he] at hp2
          by_cases hc : a = "cd".toList
          · rw [if_pos hc] at hp2
            cases hp2
            simp at hce
          · rw [if_neg hc] at hp2
            cases hp2
            cases hce
            exact ⟨by simp, by simp⟩

/-- Witness for C9 at a concrete external command. -/
theorem parse_first_word_dispatch_witness :
    ∃ a rest,
      argsOf envNone [Token.word ("ls".toList) Quoting.unquoted] = a :: rest ∧
        (a = "exit".toList →
          Command.external { cmd := "ls".toList, args := ["ls".toList] } =
            Command.builtin BuiltinCommand.exit) ∧
        (a = "cd".toList →
          Command.external { cmd := "ls".toList, args := ["ls".toList] } =
            Command.builtin (BuiltinCommand.cd (a :: rest))) ∧
        (a ≠ "exit".toList → a ≠ "cd".toList →
          Command.external { cmd := "ls".toList, args := ["ls".toList] } =
            Command.external { cmd := a, args := a :: rest }) ∧
        ∀ e : ExternalCommand,
          Command.external { cmd := "ls".toList, args := ["ls".toList] } =
            Command.external e →
          e.args ≠ [] ∧ e.args.head? = some e.cmd :=
  parse_first_word_dispatch envNone [Token.word ("ls".toList) Quoting.unquoted]
    (Command.external { cmd := "ls".toList, args := ["ls".toList] }) (by decide)

/-! The unit tests of the source file, replayed against the embedding. -/

example : tokenize ("echo hello world".toList) =
    [Token.word ("echo".toList) Quoting.unquoted, Token.whitespace,
     Token.word ("hello".toList) Quoting.unquoted, Token.whitespace,
     Token.word ("world".toList) Quoting.unquoted] := by decide

example : tokenize ("echo ".toList ++ sq :: "hello world".toList ++ [sq]) =
    [Token.word ("echo".toList) Quoting.unquoted, Token.whitespace,
     Token.word ("hello world".toList) Quoting.singleQuoted] := by decide

example : tokenize ("echo \"hello world\"".toList) =
    [Token.word ("echo".toList) Quoting.unquoted, Token.whitespace,
     Token.word ("hello world".toList) Quoting.doubleQuoted] := by decide

example : tokenize ("echo ".toList ++ sq :: "hello".toList ++ sq :: " \"world\"".toList) =
    [Token.word ("echo".toList) Quoting.unquoted, Token.whitespace,
     Token.word ("hello".toList) Quoting.singleQuoted, Token.whitespace,
     Token.word ("world".toList) Quoting.doubleQuoted] := by decide

example : tokenize ("echo ".toList ++ sq :: "he\"llo".toList ++ sq :: " \"w".toList
      ++ sq :: "orld\"".toList) =
    [Token.word ("echo".toList) Quoting.unquoted, Token.whitespace,
     Token.word ("he\"llo".toList) Quoting.singleQuoted, Token.whitespace,
     Token.word ("w".toList ++ sq :: "orld".toList) Quoting.doubleQuoted] := by decide

example : tokenize ("echo hi;".toList) =
    [Token.word ("echo".toList) Quoting.unquoted, Token.whitespace,
     Token.word ("hi".toList) Quoting.unquoted,
     Token.op Operator.semicolon] := by decide

example : tokenize ("hello && world".toList) =
    [Token.word ("hello".toList) Quoting.unquoted, Token.whitespace,
     Token.op Operator.and, Token.whitespace,
     Token.word ("world".toList) Quoting.unquoted] := by decide

example : tokenize ("echo  hi".toList) =
    [Token.word ("echo".toList) Quoting.unquoted, Token.whitespace,
     Token.word ("hi".toList) Quoting.unquoted] := by decide

example : tokenize ("echo \\\"hi\\\"".toList) =
    [Token.word ("echo".toList) Quoting.unquoted, Token.whitespace,
     Token.word ("\"hi\"".toList) Quoting.unquoted] := by decide

example : tokenize ("echo \\\\".toList) =
    [Token.word ("echo".toList) Quoting.unquoted, Token.whitespace,
     Token.word ("\\".toList) Quoting.unquoted] := by decide

example : tokenize ("echo \"\\n\"".toList) =
    [Token.word ("echo".toList) Quoting.unquoted, Token.whitespace,
     Token.word ("\n".toList) Quoting.doubleQuoted] := by decide

/-! Further concrete checks of the REPL model. -/

example : replStep envNone chdirAlwaysOk ("/w".toList) ("exit\n".toList) =
    (LoopOut.exitZero, "/w".toList) := by decide

example : replStep (fun k => if k = "HOME".toList then some ("/home/x".toList) else none)
    chdirAlwaysOk ("/w".toList) ("cd\n".toList) = (LoopOut.next, "/home/x".toList) := by decide

example : replStep envNone chdirAlwaysOk ("/w".toList) ("cd /tmp\n".toList) =
    (LoopOut.next, "/tmp".toList) := by decide

example : expandVars envFOO ("a$FOO-b".toList) = "abar-b".toList := by decide

example : expandVars envNone ("a$FOO-b".toList) = "a-b".toList := by decide

end Trash
